import Mathlib

/-!
Shallow embedding of the three teaching programs of the repository
(DependencyInvPrinciple.cpp, OpenClosedPrinciple.cpp, SingleResponsibility.cpp)
and proofs of the specification's claims about them.

Conventions: C++ vectors become `List`, methods that mutate an object become
functions returning the updated value, the process-wide `static int count` of
`Journal::add` becomes an explicit counter threaded through a process state,
and the file system touched by `PersistenceManager::save` becomes an explicit
map from file names to character contents, with a writability flag modelling
whether opening the `ofstream` succeeds.
-/

/-! ### DependencyInvPrinciple.cpp -/

/-- `enum class Relationship { parent, child, sibling }`. -/
inductive Relationship where
  | parent
  | child
  | sibling
deriving DecidableEq, BEq, Repr

/-- `struct Person { string name; }`. -/
structure Person where
  name : String
deriving DecidableEq, BEq, Repr

/-- `struct Relationships { vector<tuple<Person, Relationship, Person>> relations; }`. -/
structure Relationships where
  relations : List (Person × Relationship × Person)
deriving DecidableEq, Repr

/-- `Relationships::add_parent_and_child`: two `push_back` calls, first the
`(parent, parent, child)` fact, then the `(child, child, parent)` fact. -/
def Relationships.add_parent_and_child (rs : Relationships)
    (parent child : Person) : Relationships :=
  { rs with relations :=
      rs.relations ++ [(parent, Relationship.parent, child),
                       (child, Relationship.child, parent)] }

/-- The loop body of `Relationships::find_all_children_of`: scan the stored
facts in order, keeping the object of each fact whose subject name equals
`name` and whose relation is `parent`. -/
def findChildrenScan (name : String) :
    List (Person × Relationship × Person) → List Person
  | [] => []
  | (first, rel, second) :: rest =>
    if first.name == name && rel == Relationship.parent then
      second :: findChildrenScan name rest
    else
      findChildrenScan name rest

/-- `Relationships::find_all_children_of`. -/
def Relationships.find_all_children_of (rs : Relationships)
    (name : String) : List Person :=
  findChildrenScan name rs.relations

/-- A fact store built by a sequence of symmetric add operations, starting
from the empty store (as `main` does). -/
def buildStore (pairs : List (Person × Person)) : Relationships :=
  pairs.foldl (fun st pc => st.add_parent_and_child pc.1 pc.2) ⟨[]⟩

/-! ### OpenClosedPrinciple.cpp -/

/-- `enum class Color { red, green, blue }`. -/
inductive Color where
  | red
  | green
  | blue
deriving DecidableEq, BEq, Repr

/-- `enum class Size { small, medium, large }`. -/
inductive Size where
  | small
  | medium
  | large
deriving DecidableEq, BEq, Repr

/-- `struct Product { string name; Color color; Size size; }`. -/
structure Product where
  name : String
  color : Color
  size : Size
deriving DecidableEq, Repr

/-- `ProductFilter::by_color`. -/
def ProductFilter.by_color : List Product → Color → List Product
  | [], _ => []
  | i :: items, color =>
    if i.color == color then i :: ProductFilter.by_color items color
    else ProductFilter.by_color items color

/-- `ProductFilter::by_size`. -/
def ProductFilter.by_size : List Product → Size → List Product
  | [], _ => []
  | i :: items, size =>
    if i.size == size then i :: ProductFilter.by_size items size
    else ProductFilter.by_size items size

/-- `ProductFilter::by_size_and_color`. -/
def ProductFilter.by_size_and_color : List Product → Size → Color → List Product
  | [], _, _ => []
  | i :: items, size, color =>
    if i.size == size && i.color == color then
      i :: ProductFilter.by_size_and_color items size color
    else
      ProductFilter.by_size_and_color items size color

/-- `BetterFilter::filter`: the loop over `items` calling the virtual
`spec.is_satisfied` on each one.  A `Specification<Product>` subclass is
represented by its dispatched `is_satisfied` function. -/
def BetterFilter.filter (items : List Product) (is_sat : Product → Bool) :
    List Product :=
  match items with
  | [] => []
  | p :: ps =>
    if is_sat p then p :: BetterFilter.filter ps is_sat
    else BetterFilter.filter ps is_sat

/-- `struct ColorSpecification : Specification<Product>`. -/
structure ColorSpecification where
  color : Color
deriving Repr

/-- `ColorSpecification::is_satisfied`. -/
def ColorSpecification.is_satisfied (s : ColorSpecification)
    (item : Product) : Bool :=
  item.color == s.color

/-- `struct SizeSpecification : Specification<Product>`. -/
structure SizeSpecification where
  size : Size
deriving Repr

/-- `SizeSpecification::is_satisfied`. -/
def SizeSpecification.is_satisfied (s : SizeSpecification)
    (item : Product) : Bool :=
  item.size == s.size

/-- `struct AndSpecification : Specification<T>`: holds its two operand
specifications (represented by their `is_satisfied` functions, as they are
held by reference to the abstract base). -/
structure AndSpecification where
  first : Product → Bool
  second : Product → Bool

/-- `AndSpecification::is_satisfied`: the conjunction of the operands. -/
def AndSpecification.is_satisfied (s : AndSpecification)
    (item : Product) : Bool :=
  s.first item && s.second item

/-- Intersection by identity of two product lists: the elements of the first
that also occur in the second.  In the C++ source identity is pointer
equality; its image in the embedding is equality of the stored values. -/
def interById (l1 l2 : List Product) : List Product :=
  l1.filter (fun (x : Product) => decide (x ∈ l2))

/-! ### SingleResponsibility.cpp -/

/-- `struct Journal { string title; vector<string> entries; }`. -/
structure Journal where
  title : String
  entries : List String
deriving DecidableEq, Repr

/-- The `Journal` constructor: a title and no entries. -/
def Journal.new (title : String) : Journal :=
  ⟨title, []⟩

/-- `Journal::add`, the entry-formatting and `push_back` part: the shared
`static int count` is passed in explicitly; its increment is performed by the
process-level step `ProcState.addTo` below. -/
def Journal.add (j : Journal) (count : Nat) (entry : String) : Journal :=
  { j with entries := j.entries ++ [toString count ++ ": " ++ entry] }

/-- The process state relevant to `Journal::add`: the process-wide static
counter (initialised to 1) together with every live `Journal` instance. -/
structure ProcState where
  count : Nat
  journals : List Journal
deriving DecidableEq, Repr

/-- The process state at startup: `static int count = 1`, and the given
journal instances. -/
def ProcState.init (js : List Journal) : ProcState :=
  ⟨1, js⟩

/-- One call `journals[i].add entry`: formats the entry with the current
shared counter value and increments that counter (`count++`). -/
def ProcState.addTo (s : ProcState) (i : Nat) (entry : String) : ProcState :=
  if h : i < s.journals.length then
    { count := s.count + 1
      journals := s.journals.set i ((s.journals[i]).add s.count entry) }
  else s

/-- A sequence of `add` calls, each naming the journal instance it targets. -/
def runAdds (s : ProcState) (ops : List (Nat × String)) : ProcState :=
  ops.foldl (fun st op => st.addTo op.1 op.2) s

/-- A minimal file system: which destinations can be opened for writing, and
the character contents of each destination. -/
structure FileSystem where
  writable : String → Bool
  contents : String → List Char

/-- The loop of `PersistenceManager::save`: `ofs << s << endl` for each entry,
in order. -/
def writeEntries : List String → List Char
  | [] => []
  | e :: es => e.data ++ '\n' :: writeEntries es

/-- `PersistenceManager::save`: opens `filename` truncating it, writes every
entry newline-terminated, and returns no error indication whatsoever.  If the
destination cannot be opened the stream is in a failed state, every write is
silently ignored and the function still returns normally. -/
def PersistenceManager.save (j : Journal) (fs : FileSystem)
    (filename : String) : FileSystem :=
  if fs.writable filename then
    { fs with contents := fun f =>
        if f = filename then writeEntries j.entries else fs.contents f }
  else fs

/-- Split file contents back into lines: each `'\n'` terminates a line; a
trailing fragment with no terminator is a final partial line. -/
def splitLines : List Char → List (List Char)
  | [] => []
  | c :: cs =>
    if c = '\n' then [] :: splitLines cs
    else
      match splitLines cs with
      | [] => [[c]]
      | l :: ls => (c :: l) :: ls

/-! ### Stateful view of the specifications (for the purity claim)

The C++ `is_satisfied` methods receive the item through a pointer, so in
principle a call could alter the item.  To make the claim that they do not a
theorem rather than a modelling artifact, the concrete specification classes
of the repository (`ColorSpecification`, `SizeSpecification`, and their
`AndSpecification` composites) are re-embedded here with an explicit item
state: each call returns its boolean together with the item as it stands
after the call, following the method bodies line by line. -/

/-- The closed family of specifications the repository instantiates:
colour tests, size tests and AND-composites of these. -/
inductive PSpec where
  | colorSpec (color : Color)
  | sizeSpec (size : Size)
  | andSpec (first second : PSpec)
deriving DecidableEq, Repr

/-- `is_satisfied` with the item state made explicit: the result boolean and
the item as left behind by the call.  The colour and size bodies only read
`item->color` / `item->size`; the AND body calls its first operand and, as
C++ `&&` short-circuits, calls the second only when the first succeeded. -/
def PSpec.is_satisfiedSt : PSpec → Product → Bool × Product
  | .colorSpec c, item => (item.color == c, item)
  | .sizeSpec s, item => (item.size == s, item)
  | .andSpec a b, item =>
    let r1 := a.is_satisfiedSt item
    if r1.1 then
      let r2 := b.is_satisfiedSt r1.2
      (r2.1, r2.2)
    else
      (false, r1.2)

/-- `BetterFilter::filter` with the item states made explicit: returns the
kept items and the input sequence as it stands after all the
`is_satisfied` calls. -/
def BetterFilter.filterSt (items : List Product) (spec : PSpec) :
    List Product × List Product :=
  match items with
  | [] => ([], [])
  | p :: ps =>
    let r := spec.is_satisfiedSt p
    let rest := BetterFilter.filterSt ps spec
    (if r.1 then r.2 :: rest.1 else rest.1, r.2 :: rest.2)

/-! ## Theorems -/

/-- The scan of `find_all_children_of` keeps exactly the objects of the
matching facts, in storage order. -/
lemma findChildrenScan_eq (name : String)
    (l : List (Person × Relationship × Person)) :
    findChildrenScan name l =
      (l.filter (fun r => r.1.name == name && r.2.1 == Relationship.parent)).map
        (fun r => r.2.2) := by
  induction l with
  | nil => rfl
  | cons head tail ih =>
    obtain ⟨f, rel, s⟩ := head
    by_cases h : (f.name == name && rel == Relationship.parent) = true
    · simp [findChildrenScan, List.filter_cons, h, ih]
    · simp [findChildrenScan, List.filter_cons, h, ih]

/-- C1: on a store built by any sequence of symmetric adds,
`find_all_children_of name` returns exactly the object Persons of the facts
whose subject name equals `name` and whose relation is `parent`, in storage
order; in particular it is empty exactly when no such fact is stored (so an
unknown name yields the empty list, never a failure). -/
theorem find_all_children_of_spec (pairs : List (Person × Person))
    (name : String) :
    (buildStore pairs).find_all_children_of name =
      ((buildStore pairs).relations.filter
        (fun r => r.1.name == name && r.2.1 == Relationship.parent)).map
        (fun r => r.2.2) ∧
    ((buildStore pairs).relations.filter
        (fun r => r.1.name == name && r.2.1 == Relationship.parent) = [] ↔
      (buildStore pairs).find_all_children_of name = []) := by
  constructor
  · exact findChildrenScan_eq name _
  · rw [Relationships.find_all_children_of, findChildrenScan_eq]
    simp

/-- Any run of symmetric adds only appends to the relations list. -/
lemma foldl_add_relations_grows (extra : List (Person × Person)) :
    ∀ st : Relationships, ∃ tail,
      (extra.foldl (fun st pc => st.add_parent_and_child pc.1 pc.2)
        st).relations = st.relations ++ tail := by
  induction extra with
  | nil => exact fun st => ⟨[], by simp⟩
  | cons pc rest ih =>
    intro st
    obtain ⟨tail, htail⟩ := ih (st.add_parent_and_child pc.1 pc.2)
    refine ⟨[(pc.1, Relationship.parent, pc.2),
             (pc.2, Relationship.child, pc.1)] ++ tail, ?_⟩
    rw [List.foldl_cons, htail, Relationships.add_parent_and_child]
    simp

/-- The loop of `BetterFilter::filter` is `List.filter` of the dispatched
predicate. -/
lemma better_filter_eq_filter (items : List Product) (is_sat : Product → Bool) :
    BetterFilter.filter items is_sat = items.filter is_sat := by
  induction items with
  | nil => rfl
  | cons p ps ih =>
    by_cases h : is_sat p = true
    · simp [BetterFilter.filter, List.filter_cons, h, ih]
    · simp [BetterFilter.filter, List.filter_cons, h, ih]

/-- C2: `BetterFilter::filter` returns the stable-ordered subsequence of the
items satisfying the specification: it equals `List.filter` of the predicate,
is a sublist of the input (hence a subset preserving relative order), has
length at most that of the input, yields `[]` on an empty input, and yields
`[]` for a specification satisfied by nothing. -/
theorem better_filter_spec (items : List Product) (is_sat : Product → Bool) :
    BetterFilter.filter items is_sat = items.filter is_sat ∧
    List.Sublist (BetterFilter.filter items is_sat) items ∧
    (BetterFilter.filter items is_sat).length ≤ items.length ∧
    BetterFilter.filter [] is_sat = [] ∧
    BetterFilter.filter items (fun _ => false) = [] := by
  refine ⟨better_filter_eq_filter items is_sat, ?_, ?_, rfl, ?_⟩
  · rw [better_filter_eq_filter]
    exact List.filter_sublist items
  · rw [better_filter_eq_filter]
    exact (List.filter_sublist items).length_le
  · rw [better_filter_eq_filter]
    simp

/-- Membership in a filtered list evaluates the predicate, for elements of
the base list. -/
lemma decide_mem_filter (items : List Product) (b : Product → Bool)
    (x : Product) (hx : x ∈ items) :
    decide (x ∈ items.filter b) = b x := by
  cases hbx : b x
  · simp [List.mem_filter, hbx]
  · simp [List.mem_filter, hx, hbx]

/-- C3: the AND-composition of two specifications is satisfied exactly when
both operands are; consequently conjunction is commutative and associative in
the filter result, and filtering by `A && B` equals the identity-based
intersection of the two separate filter results. -/
theorem and_specification_spec (a b c : Product → Bool) (item : Product)
    (items : List Product) :
    (AndSpecification.mk a b).is_satisfied item = (a item && b item) ∧
    ((AndSpecification.mk a b).is_satisfied item = true ↔
      (a item = true ∧ b item = true)) ∧
    BetterFilter.filter items (AndSpecification.mk a b).is_satisfied =
      BetterFilter.filter items (AndSpecification.mk b a).is_satisfied ∧
    BetterFilter.filter items
        (AndSpecification.mk (AndSpecification.mk a b).is_satisfied c).is_satisfied =
      BetterFilter.filter items
        (AndSpecification.mk a (AndSpecification.mk b c).is_satisfied).is_satisfied ∧
    BetterFilter.filter items (AndSpecification.mk a b).is_satisfied =
      interById (BetterFilter.filter items a) (BetterFilter.filter items b) := by
  refine ⟨rfl, ?_, ?_, ?_, ?_⟩
  · simp [AndSpecification.is_satisfied, Bool.and_eq_true]
  · rw [better_filter_eq_filter, better_filter_eq_filter]
    apply List.filter_congr
    intro x _
    simp only [AndSpecification.is_satisfied]
    apply Bool.and_comm
  · rw [better_filter_eq_filter, better_filter_eq_filter]
    apply List.filter_congr
    intro x _
    simp [AndSpecification.is_satisfied, Bool.and_assoc]
  · rw [better_filter_eq_filter, better_filter_eq_filter,
      better_filter_eq_filter, interById, List.filter_filter]
    apply List.filter_congr
    intro x hx
    simp only [AndSpecification.is_satisfied, decide_mem_filter items b x hx]
    apply Bool.and_comm

/-- C10: the hand-written combined filter `ProductFilter::by_size_and_color`
agrees with `BetterFilter::filter` applied to the AND-composition of the size
and colour specifications, on every item sequence. -/
theorem by_size_and_color_eq_better_filter (items : List Product)
    (s : Size) (c : Color) :
    ProductFilter.by_size_and_color items s c =
      BetterFilter.filter items
        (AndSpecification.mk (SizeSpecification.mk s).is_satisfied
          (ColorSpecification.mk c).is_satisfied).is_satisfied := by
  induction items with
  | nil => rfl
  | cons p ps ih =>
    by_cases h : (p.size == s && p.color == c) = true
    · simp [ProductFilter.by_size_and_color, BetterFilter.filter,
        AndSpecification.is_satisfied, SizeSpecification.is_satisfied,
        ColorSpecification.is_satisfied, h, ih]
    · simp [ProductFilter.by_size_and_color, BetterFilter.filter,
        AndSpecification.is_satisfied, SizeSpecification.is_satisfied,
        ColorSpecification.is_satisfied, h, ih]

/-- Every specification of the repository leaves the item it examines
unchanged. -/
lemma is_satisfiedSt_snd (spec : PSpec) :
    ∀ item : Product, (spec.is_satisfiedSt item).2 = item := by
  induction spec with
  | colorSpec c => intro item; rfl
  | sizeSpec s => intro item; rfl
  | andSpec a b iha ihb =>
    intro item
    simp only [PSpec.is_satisfiedSt]
    by_cases h : (a.is_satisfiedSt item).1 = true
    · simp [h, iha, ihb]
    · simp [h, iha]

/-- The stateful filter returns the filtered items and the input unchanged. -/
lemma filterSt_eq (items : List Product) (spec : PSpec) :
    BetterFilter.filterSt items spec =
      (items.filter (fun p => (spec.is_satisfiedSt p).1), items) := by
  induction items with
  | nil => rfl
  | cons p ps ih =>
    by_cases h : (spec.is_satisfiedSt p).1 = true
    · simp [BetterFilter.filterSt, List.filter_cons, h, ih, is_satisfiedSt_snd]
    · simp [BetterFilter.filterSt, List.filter_cons, h, ih, is_satisfiedSt_snd]

/-- C9: the repository's specifications are pure: an `is_satisfied` call
leaves the item unchanged and a repeated call returns the same result, and
`filter` mutates neither the input sequence nor any item in it while
returning exactly the satisfying items. -/
theorem specifications_pure (spec : PSpec) (item : Product)
    (items : List Product) :
    (spec.is_satisfiedSt item).2 = item ∧
    spec.is_satisfiedSt ((spec.is_satisfiedSt item).2) =
      spec.is_satisfiedSt item ∧
    (BetterFilter.filterSt items spec).2 = items ∧
    (BetterFilter.filterSt items spec).1 =
      items.filter (fun p => (spec.is_satisfiedSt p).1) := by
  refine ⟨is_satisfiedSt_snd spec item, ?_, ?_, ?_⟩
  · rw [is_satisfiedSt_snd spec item]
  · rw [filterSt_eq]
  · rw [filterSt_eq]

/-- C4: the entry counter is a single process-wide counter: it starts at 1
when the process starts, and every `add` call on any journal instance appends
to that instance one entry `"{count}: {text}"` formatted with the current
shared counter value and increments the shared counter by one. -/
theorem journal_add_shared_counter (js : List Journal) (s : ProcState)
    (i : Nat) (e : String) (h : i < s.journals.length) :
    (ProcState.init js).count = 1 ∧
    (s.addTo i e).count = s.count + 1 ∧
    (s.addTo i e).journals =
      s.journals.set i ⟨(s.journals[i]).title,
        (s.journals[i]).entries ++ [toString s.count ++ ": " ++ e]⟩ := by
  refine ⟨rfl, ?_, ?_⟩ <;> simp [ProcState.addTo, Journal.add, h]

theorem journal_add_shared_counter_witness :
    (ProcState.init [Journal.new "Work"]).count = 1 ∧
    ((⟨5, [Journal.new "A", Journal.new "B"]⟩ : ProcState).addTo 1
        "fed the cat").count = 5 + 1 ∧
    ((⟨5, [Journal.new "A", Journal.new "B"]⟩ : ProcState).addTo 1
        "fed the cat").journals =
      [Journal.new "A", Journal.new "B"].set 1
        ⟨(Journal.new "B").title,
         (Journal.new "B").entries ++ [toString 5 ++ ": " ++ "fed the cat"]⟩ :=
  journal_add_shared_counter [Journal.new "Work"]
    ⟨5, [Journal.new "A", Journal.new "B"]⟩ 1 "fed the cat" (by decide)

/-- C5 (counterexample): two `add` calls on journal `A` with an `add` on
journal `B` interleaved leave `A` with entries `["1: x", "3: z"]`: the shared
counter puts a gap in `A`'s indices and the second text added to `A` is not
formatted `"2: z"`. -/
theorem journal_add_interleaving_counterexample :
    ((runAdds ⟨1, [Journal.new "A", Journal.new "B"]⟩
        [(0, "x"), (1, "y"), (0, "z")]).journals.getD 0 (Journal.new "")).entries
      = ["1: x", "3: z"] ∧
    ((runAdds ⟨1, [Journal.new "A", Journal.new "B"]⟩
        [(0, "x"), (1, "y"), (0, "z")]).journals.getD 0 (Journal.new "")).entries
      ≠ ["1: x", "2: z"] := by
  constructor
  · rfl
  · decide

/-- Consecutive `add` calls on a single journal, starting from shared counter
value `c`, append the texts formatted with the counter values `c, c+1, …`. -/
lemma runAdds_single_journal (ts : List String) :
    ∀ (c : Nat) (j : Journal),
      runAdds ⟨c, [j]⟩ (ts.map fun t => (0, t)) =
        ⟨c + ts.length,
         [⟨j.title, j.entries ++
            (ts.enumFrom c).map (fun kt => toString kt.1 ++ ": " ++ kt.2)⟩]⟩ := by
  induction ts with
  | nil => intro c j; simp [runAdds]
  | cons t ts ih =>
    intro c j
    have hstep : runAdds (⟨c, [j]⟩ : ProcState) ((t :: ts).map fun t => (0, t)) =
        runAdds ⟨c + 1, [j.add c t]⟩ (ts.map fun t => (0, t)) := rfl
    rw [hstep, ih (c + 1) (j.add c t)]
    simp only [ProcState.mk.injEq]
    constructor
    · simp only [List.length_cons]
      omega
    · simp [Journal.add, List.enumFrom]

/-- C5 (amended): for a fresh process holding one journal, `add` called once
per text with no interleaved `add` on any other instance produces exactly the
entries `"1: t₁", …, "N: t_N"` in order — strictly increasing, gap-free
indices starting at 1. -/
theorem journal_add_sequence (title : String) (ts : List String) :
    (runAdds (ProcState.init [Journal.new title])
        (ts.map fun t => (0, t))).journals =
      [⟨title, (ts.enumFrom 1).map (fun kt => toString kt.1 ++ ": " ++ kt.2)⟩] := by
  rw [ProcState.init, runAdds_single_journal ts 1 (Journal.new title)]
  simp [Journal.new]

/-- C6: `PersistenceManager::save` on a destination that cannot be opened
returns normally with the file system unchanged: the write failure is
silently ignored, no error condition reaches the caller. -/
theorem save_silently_ignores_failure :
    PersistenceManager.save ⟨"Dear Diary", ["1: I ate a bug"]⟩
      ⟨fun _ => false, fun _ => []⟩ "diary.txt" =
      (⟨fun _ => false, fun _ => []⟩ : FileSystem) := rfl

/-- C7 (counterexample): an entry containing an embedded newline breaks the
save/read round-trip: the journal `["a\nb"]` is read back as the two lines
`"a"` and `"b"`, not as its single entry. -/
theorem save_roundtrip_counterexample :
    splitLines ((PersistenceManager.save ⟨"T", ["a\nb"]⟩
        ⟨fun _ => true, fun _ => []⟩ "diary.txt").contents "diary.txt") ≠
      (["a\nb"] : List String).map String.data := by
  decide

/-- Splitting after writing one newline-free line recovers that line. -/
lemma splitLines_append (l rest : List Char) (hl : '\n' ∉ l) :
    splitLines (l ++ '\n' :: rest) = l :: splitLines rest := by
  induction l with
  | nil => simp [splitLines]
  | cons ch l ih =>
    have hch : ¬ch = '\n' := by
      intro h; exact hl (by simp [h])
    have hl' : '\n' ∉ l := by
      intro h; exact hl (by simp [h])
    simp only [List.cons_append, splitLines, List.append_eq, if_neg hch, ih hl']

/-- The save format round-trips for entries without embedded newlines. -/
lemma splitLines_writeEntries (es : List String)
    (h : ∀ e ∈ es, '\n' ∉ e.data) :
    splitLines (writeEntries es) = es.map String.data := by
  induction es with
  | nil => rfl
  | cons e es ih =>
    rw [writeEntries, splitLines_append e.data (writeEntries es) (h e (by simp)),
      ih (fun x hx => h x (by simp [hx])), List.map_cons]

/-- C7 (amended): saving a journal whose entries contain no newline character
to a writable destination replaces that destination's contents with exactly
the entries, one per line, newline-terminated, in insertion order, and
reading the destination back line by line yields exactly the entries. -/
theorem save_writes_entries_roundtrip (j : Journal) (fs : FileSystem)
    (filename : String) (hw : fs.writable filename = true)
    (hnl : ∀ e ∈ j.entries, '\n' ∉ e.data) :
    (PersistenceManager.save j fs filename).contents filename =
      writeEntries j.entries ∧
    splitLines ((PersistenceManager.save j fs filename).contents filename) =
      j.entries.map String.data := by
  have hc : (PersistenceManager.save j fs filename).contents filename =
      writeEntries j.entries := by
    simp [PersistenceManager.save, hw]
  exact ⟨hc, by rw [hc]; exact splitLines_writeEntries j.entries hnl⟩

theorem save_writes_entries_roundtrip_witness :
    (PersistenceManager.save ⟨"Dear Diary", ["1: a", "2: b"]⟩
        ⟨fun _ => true, fun _ => ['o']⟩ "diary.txt").contents "diary.txt" =
      writeEntries ["1: a", "2: b"] ∧
    splitLines ((PersistenceManager.save ⟨"Dear Diary", ["1: a", "2: b"]⟩
        ⟨fun _ => true, fun _ => ['o']⟩ "diary.txt").contents "diary.txt") =
      (["1: a", "2: b"] : List String).map String.data :=
  save_writes_entries_roundtrip ⟨"Dear Diary", ["1: a", "2: b"]⟩
    ⟨fun _ => true, fun _ => ['o']⟩ "diary.txt" rfl (by decide)

/-- C8: `add_parent_and_child A B` appends exactly the fact
`(A, parent, B)` followed by the fact `(B, child, A)` to the stored facts,
and extending any build sequence only ever appends to the fact sequence —
no operation removes or modifies an existing fact. -/
theorem add_parent_and_child_symmetric_append (rs : Relationships)
    (a b : Person) :
    (rs.add_parent_and_child a b).relations =
      rs.relations ++ [(a, Relationship.parent, b),
                       (b, Relationship.child, a)] ∧
    ∀ (pairs extra : List (Person × Person)), ∃ tail,
      (buildStore (pairs ++ extra)).relations =
        (buildStore pairs).relations ++ tail := by
  constructor
  · rfl
  · intro pairs extra
    have h : buildStore (pairs ++ extra) =
        extra.foldl (fun st pc => st.add_parent_and_child pc.1 pc.2)
          (buildStore pairs) := by
      simp [buildStore, List.foldl_append]
    rw [h]
    exact foldl_add_relations_grows extra (buildStore pairs)
